import Mathlib

/-!
Verification development for the pokemondata-pipeline repository.

The extraction half (src/etl/extract.py) is embedded as pure functions over
an abstract network oracle `net : String → NetResult`: the oracle models the
observable outcome of `session.get` on one detail URL (a decoded payload, a
timeout, or any other request error).  The load half (src/etl/load.py) is
embedded as explicit state passing over a `Store` holding the three SQLite
tables, with the SQLite constraint semantics (NOT NULL, UNIQUE, FOREIGN KEY,
and the `OR IGNORE` / `ON CONFLICT DO UPDATE` conflict-resolution rules)
made explicit in the insert functions.
-/

namespace PokePipeline

/-! ## Extraction data model (src/etl/extract.py) -/

/-- The `sprites` sub-object of a detail payload; `front_default` models
`raw.get("sprites", {}).get("front_default")`'s inner lookup. -/
structure SpritesBlock where
  front_default : Option String
deriving Repr, DecidableEq

/-- A decoded detail payload as observed by `fetch_pokemon_detail`.
`id = none` models the `"id"` key being absent (so `raw["id"]` raises
`KeyError`), and similarly for `name`.  The `types` and `abilities` lists
hold the already-extracted inner names `t["type"]["name"]` /
`a["ability"]["name"]` (the payloads the pipeline consumes have this
well-formed nesting). -/
structure RawPayload where
  id : Option Int
  name : Option String
  height : Option Int
  weight : Option Int
  base_experience : Option Int
  types : Option (List String)
  abilities : Option (List String)
  sprites : Option SpritesBlock
deriving Repr, DecidableEq

/-- The curated record built by `fetch_pokemon_detail` (the dict literal at
extract.py lines 63-72). -/
structure CuratedRecord where
  id : Int
  name : String
  height : Option Int
  weight : Option Int
  base_experience : Option Int
  types : List String
  abilities : List String
  sprites_front_default : Option String
deriving Repr, DecidableEq

/-- Outcome of one `session.get` on a detail URL, after transport-level
retries: a decoded payload, a `requests.exceptions.Timeout`, or any other
`requests.exceptions.RequestException` (non-success status, connection
error, or a malformed body, since `requests`' JSON decode error is a
`RequestException` subclass). -/
inductive NetResult where
  | ok (raw : RawPayload)
  | timeout
  | reqError
deriving Repr, DecidableEq

/-- Errors that can escape `fetch_pokemon_detail`: the two request-error
classes, and the Python `KeyError` raised by a missing mandatory key
(`raw["id"]` / `raw["name"]`, or `item["url"]` in the orchestrator). -/
inductive FetchErr where
  | timeout
  | reqError
  | keyError
deriving Repr, DecidableEq

/-- The projection of a decoded payload into the curated dict
(extract.py lines 63-72); `none` when the mandatory `"id"` or `"name"`
key is absent, in which case the Python code raises `KeyError`. -/
def projectPayload (raw : RawPayload) : Option CuratedRecord :=
  match raw.id, raw.name with
  | some i, some nm =>
      some { id := i
             name := nm
             height := raw.height
             weight := raw.weight
             base_experience := raw.base_experience
             types := raw.types.getD []
             abilities := raw.abilities.getD []
             sprites_front_default := raw.sprites.bind SpritesBlock.front_default }
  | _, _ => none

/-- `fetch_pokemon_detail` (extract.py lines 56-73): perform the request,
decode, and build the curated record, returning the (curated, raw) pair. -/
def fetch_pokemon_detail (net : String → NetResult) (detail_url : String) :
    Except FetchErr (CuratedRecord × RawPayload) :=
  match net detail_url with
  | .timeout => .error .timeout
  | .reqError => .error .reqError
  | .ok raw =>
      match projectPayload raw with
      | some rec => .ok (rec, raw)
      | none => .error .keyError

/-- One entry of the index page's `results` list.  `url = none` models the
`"url"` key being absent, so `item["url"]` raises `KeyError`; `name` is read
with `.get` and only used for logging. -/
structure IndexItem where
  url : Option String
  name : Option String
deriving Repr, DecidableEq

/-- `extract_pokemon_batch`'s per-item loop (extract.py lines 90-106) over a
given index page: `item["url"]` is read before the `try` block, so a missing
`"url"` key aborts; inside the `try`, a `Timeout` or any other
`RequestException` is caught and the item skipped, while the `KeyError`
from a payload missing `id`/`name` is not caught and aborts the batch.
On success the curated record and the raw payload are appended in lock-step.
The returned pair is (curated list, raw list) as persisted/returned. -/
def extract_pokemon_batch (net : String → NetResult) :
    List IndexItem → Except FetchErr (List CuratedRecord × List RawPayload)
  | [] => .ok ([], [])
  | item :: rest =>
      match item.url with
      | none => .error .keyError
      | some u =>
          match fetch_pokemon_detail net u with
          | .error .timeout => extract_pokemon_batch net rest
          | .error .reqError => extract_pokemon_batch net rest
          | .error .keyError => .error .keyError
          | .ok (rec, raw) =>
              match extract_pokemon_batch net rest with
              | .ok (curated, rawDump) => .ok (rec :: curated, raw :: rawDump)
              | .error e => .error e

/-- Per-item classification used in batch-level statements about
`extract_pokemon_batch`: the item has a `"url"` key, and its fetch either
succeeds with a payload carrying the mandatory id and name
(`o = some raw`), or fails with one of the two caught request-error
classes and is skipped (`o = none`). -/
def itemSkipOrOk (net : String → NetResult) (it : IndexItem) (o : Option RawPayload) : Prop :=
  ∃ u, it.url = some u ∧
    match o with
    | some raw => net u = .ok raw ∧ (projectPayload raw).isSome
    | none => net u = .timeout ∨ net u = .reqError

/-! ## Load data model (src/etl/load.py) -/

/-- One row of the `pokemon` parent table (load.py lines 26-32):
`id INTEGER PRIMARY KEY`, `name TEXT NOT NULL`, the rest nullable. -/
structure PokemonRow where
  id : Int
  name : String
  height : Option Int
  weight : Option Int
  base_experience : Option Int
deriving Repr, DecidableEq

/-- One record of the curated JSON collection as consumed by load.py:
`r["id"]` (present, converted with `int`), `r["name"]` (may be JSON null,
hence `Option`), the nullable scalars read with `.get`, and the two name
lists, where the whole list may be null/absent (`r.get("types") or []`)
and an individual entry may be null (bound as SQL NULL). -/
structure CuratedRow where
  id : Int
  name : Option String
  height : Option Int
  weight : Option Int
  base_experience : Option Int
  types : Option (List (Option String))
  abilities : Option (List (Option String))
deriving Repr, DecidableEq

/-- The three tables of the SQLite store (load.py lines 23-50).  Child rows
are (pokemon_id, value) pairs. -/
structure Store where
  pokemon : List PokemonRow
  pokemon_type : List (Int × String)
  pokemon_ability : List (Int × String)
deriving Repr, DecidableEq

/-- Errors raised by the SQLite layer during a load pass: a NOT NULL
constraint violation on a plain INSERT (sqlite3.IntegrityError), or a
foreign-key violation, which `INSERT OR IGNORE` does not suppress. -/
inductive LoadErr where
  | notNullViolation
  | fkViolation
deriving Repr, DecidableEq

/-- The `pokemon` row built from one curated record's bound parameters
(load.py lines 54-57), given its non-null name. -/
def pokemonRowOf (r : CuratedRow) (nm : String) : PokemonRow :=
  { id := r.id, name := nm, height := r.height, weight := r.weight,
    base_experience := r.base_experience }

/-- Insert one curated row into `pokemon` with
`INSERT ... ON CONFLICT(id) DO UPDATE` (load.py lines 59-70): a NULL `name`
violates NOT NULL and raises; if the id already exists every row with that
id has its scalar columns overwritten; otherwise a new row is appended. -/
def upsertPokemonRow (tbl : List PokemonRow) (r : CuratedRow) :
    Except LoadErr (List PokemonRow) :=
  match r.name with
  | none => .error .notNullViolation
  | some nm =>
      if ∃ p ∈ tbl, p.id = r.id then
        .ok (tbl.map fun p => if p.id = r.id then pokemonRowOf r nm else p)
      else
        .ok (tbl ++ [pokemonRowOf r nm])

/-- `upsert_pokemon` (load.py lines 53-70): `executemany` processes the
rows built from the dataframe sequentially. -/
def upsert_pokemon : List PokemonRow → List CuratedRow → Except LoadErr (List PokemonRow)
  | tbl, [] => .ok tbl
  | tbl, r :: rs =>
      match upsertPokemonRow tbl r with
      | .ok tbl2 => upsert_pokemon tbl2 rs
      | .error e => .error e

/-- The (pokemon_id, type) pair list built by `upsert_types`
(load.py lines 74-78): `for t in (r.get("types") or []): (pid, t)`. -/
def typePairs (df : List CuratedRow) : List (Int × Option String) :=
  df.flatMap fun r => (r.types.getD []).map fun t => (r.id, t)

/-- The (pokemon_id, ability) pair list built by `upsert_abilities`
(load.py lines 85-89). -/
def abilityPairs (df : List CuratedRow) : List (Int × Option String) :=
  df.flatMap fun r => (r.abilities.getD []).map fun a => (r.id, a)

/-- `INSERT OR IGNORE` of one (pokemon_id, value) pair into a child table
(load.py lines 79-82 / 90-93), with SQLite's conflict-resolution semantics:
a NULL value (NOT NULL violation) and a duplicate pair (UNIQUE violation)
are silently skipped by IGNORE, but a pokemon_id that references no parent
row is a foreign-key violation, which IGNORE does not suppress, so it
raises. -/
def insertChildPair (parent : List PokemonRow) (tbl : List (Int × String))
    (pr : Int × Option String) : Except LoadErr (List (Int × String)) :=
  match pr.2 with
  | none => .ok tbl
  | some v =>
      if (pr.1, v) ∈ tbl then .ok tbl
      else if ∃ p ∈ parent, p.id = pr.1 then .ok (tbl ++ [(pr.1, v)])
      else .error .fkViolation

/-- Sequential `executemany` of `INSERT OR IGNORE` over a pair list. -/
def insertChildPairs (parent : List PokemonRow) :
    List (Int × String) → List (Int × Option String) → Except LoadErr (List (Int × String))
  | tbl, [] => .ok tbl
  | tbl, pr :: prs =>
      match insertChildPair parent tbl pr with
      | .ok tbl2 => insertChildPairs parent tbl2 prs
      | .error e => .error e

/-- `upsert_types` (load.py lines 73-82). -/
def upsert_types (parent : List PokemonRow) (tbl : List (Int × String))
    (df : List CuratedRow) : Except LoadErr (List (Int × String)) :=
  insertChildPairs parent tbl (typePairs df)

/-- `upsert_abilities` (load.py lines 84-93). -/
def upsert_abilities (parent : List PokemonRow) (tbl : List (Int × String))
    (df : List CuratedRow) : Except LoadErr (List (Int × String)) :=
  insertChildPairs parent tbl (abilityPairs df)

/-- The transaction body of `load_to_sqlite` (load.py lines 101-105):
parent upsert, then type inserts, then ability inserts, each working on the
uncommitted connection state. -/
def loadTx (s : Store) (df : List CuratedRow) : Except LoadErr Store :=
  match upsert_pokemon s.pokemon df with
  | .error e => .error e
  | .ok pok =>
      match upsert_types pok s.pokemon_type df with
      | .error e => .error e
      | .ok ty =>
          match upsert_abilities pok s.pokemon_ability df with
          | .error e => .error e
          | .ok ab => .ok { pokemon := pok, pokemon_type := ty, pokemon_ability := ab }

/-- The `SELECT COUNT(*)` triple printed in the `finally` block
(load.py lines 111-115). -/
def storeCounts (s : Store) : Nat × Nat × Nat :=
  (s.pokemon.length, s.pokemon_type.length, s.pokemon_ability.length)

/-- What one call of `load_to_sqlite` yields: the outcome propagated to the
caller (`raise` after rollback, or normal return), the store after commit or
rollback, and the counts printed by the `finally` block. -/
structure LoadReport where
  outcome : Except LoadErr Unit
  store : Store
  counts : Nat × Nat × Nat
deriving Repr

/-- `load_to_sqlite` (load.py lines 96-116): run the transaction body;
on success commit, on any error roll the whole transaction back (the store
reverts to its pre-call state) and re-raise; in both cases the `finally`
block queries and prints the three table counts of the resulting state. -/
def load_to_sqlite (s : Store) (df : List CuratedRow) : LoadReport :=
  match loadTx s df with
  | .ok s2 => { outcome := .ok (), store := s2, counts := storeCounts s2 }
  | .error e => { outcome := .error e, store := s, counts := storeCounts s }

/-- `init_schema` (load.py lines 23-50): `CREATE TABLE IF NOT EXISTS` —
on a fresh database file (`none`) it creates the three empty tables, on an
existing store it changes nothing. -/
def init_schema : Option Store → Store
  | none => { pokemon := [], pokemon_type := [], pokemon_ability := [] }
  | some s => s

/-- A sequence of load passes (each one call of `load_to_sqlite`, keeping
the post-commit or post-rollback state). -/
def loadSeq (s : Store) (dfs : List (List CuratedRow)) : Store :=
  dfs.foldl (fun st df => (load_to_sqlite st df).store) s

/-- Store states reachable by schema initialization and load passes. -/
inductive Reachable : Store → Prop where
  | init : Reachable (init_schema none)
  | reinit (s : Store) : Reachable s → Reachable (init_schema (some s))
  | load (s : Store) (df : List CuratedRow) :
      Reachable s → Reachable (load_to_sqlite s df).store

/-- The store invariant of C9: referential integrity of both child tables
and uniqueness of the (pokemon_id, value) pairs in each. -/
def storeInv (s : Store) : Prop :=
  (∀ q ∈ s.pokemon_type, ∃ p ∈ s.pokemon, p.id = q.1) ∧
  (∀ q ∈ s.pokemon_ability, ∃ p ∈ s.pokemon, p.id = q.1) ∧
  s.pokemon_type.Nodup ∧ s.pokemon_ability.Nodup

/-! ## Concrete sample data for instantiations -/

/-- A sample curated record as produced by an extraction run. -/
def sampleRow : CuratedRow :=
  { id := 1, name := some "bulbasaur", height := some 7, weight := some 69,
    base_experience := some 64,
    types := some [some "grass", some "poison"],
    abilities := some [some "overgrow"] }

/-- The same id re-extracted later: fewer types, changed base_experience. -/
def sampleRow2 : CuratedRow :=
  { id := 1, name := some "bulbasaur", height := some 7, weight := some 69,
    base_experience := some 100,
    types := some [some "grass"],
    abilities := some [some "overgrow"] }

/-- A curated record with a JSON-null `name`: binding NULL into the
`name TEXT NOT NULL` column raises an IntegrityError during the parent
upsert step. -/
def nullNameRow : CuratedRow :=
  { id := 2, name := none, height := none, weight := none,
    base_experience := none, types := none, abilities := none }

/-- The store after one load of `[sampleRow]` into a fresh database. -/
def store1 : Store := (load_to_sqlite (init_schema none) [sampleRow]).store

/-- The store after then loading `[sampleRow2]` on top of `store1`. -/
def store2 : Store := (load_to_sqlite store1 [sampleRow2]).store

/-- The rows of the parent table carrying a given id
(`SELECT * FROM pokemon WHERE id = i`). -/
def rowsWithId (tbl : List PokemonRow) (i : Int) : List PokemonRow :=
  tbl.filter fun p => p.id = i

/-- A complete detail payload. -/
def payload1 : RawPayload :=
  { id := some 1, name := some "bulbasaur", height := some 7, weight := some 69,
    base_experience := some 64, types := some ["grass", "poison"],
    abilities := some ["overgrow"],
    sprites := some { front_default := some "sprites/1.png" } }

/-- A payload with every optional field absent. -/
def payload3 : RawPayload :=
  { id := some 3, name := some "venusaur", height := none, weight := none,
    base_experience := none, types := none, abilities := none, sprites := none }

/-- A payload whose mandatory `"id"` key is absent. -/
def payloadNoId : RawPayload :=
  { id := none, name := some "missingno", height := none, weight := none,
    base_experience := none, types := none, abilities := none, sprites := none }

/-- A network oracle for the concrete scenarios: u1 and u3 decode fine,
u2 times out, u4 returns a payload lacking `"id"`, anything else is a
request error. -/
def netW : String → NetResult := fun u =>
  if u = "u1" then .ok payload1
  else if u = "u2" then .timeout
  else if u = "u3" then .ok payload3
  else if u = "u4" then .ok payloadNoId
  else .reqError

/-- Index items for the concrete scenarios. -/
def item1 : IndexItem := { url := some "u1", name := some "bulbasaur" }

def item2 : IndexItem := { url := some "u2", name := some "ivysaur" }

def item3 : IndexItem := { url := some "u3", name := some "venusaur" }

def item4 : IndexItem := { url := some "u4", name := some "missingno" }

def itemNoUrl : IndexItem := { url := none, name := some "nourl" }

/-! ## Helper lemmas: parent upsert -/

theorem pokemonRowOf_id (r : CuratedRow) (nm : String) :
    (pokemonRowOf r nm).id = r.id := rfl

theorem upsertPokemonRow_ok_name {tbl : List PokemonRow} {r : CuratedRow}
    {tbl2 : List PokemonRow} (h : upsertPokemonRow tbl r = .ok tbl2) :
    ∃ nm, r.name = some nm := by
  cases hn : r.name with
  | none => simp [upsertPokemonRow, hn] at h
  | some nm => exact ⟨nm, rfl⟩

theorem upsertPokemonRow_some_eq (tbl : List PokemonRow) (r : CuratedRow)
    {nm : String} (hnm : r.name = some nm) :
    upsertPokemonRow tbl r =
      if ∃ p ∈ tbl, p.id = r.id then
        .ok (tbl.map fun p => if p.id = r.id then pokemonRowOf r nm else p)
      else
        .ok (tbl ++ [pokemonRowOf r nm]) := by
  unfold upsertPokemonRow
  rw [hnm]

theorem upsertPokemonRow_hasId {tbl : List PokemonRow} {r : CuratedRow}
    {tbl2 : List PokemonRow} (h : upsertPokemonRow tbl r = .ok tbl2)
    {i : Int} (hi : ∃ p ∈ tbl, p.id = i) : ∃ p ∈ tbl2, p.id = i := by
  obtain ⟨nm, hnm⟩ := upsertPokemonRow_ok_name h
  rw [upsertPokemonRow_some_eq tbl r hnm] at h
  obtain ⟨p, hp, hpid⟩ := hi
  split at h
  · cases h
    refine ⟨if p.id = r.id then pokemonRowOf r nm else p, List.mem_map_of_mem _ hp, ?_⟩
    by_cases hc : p.id = r.id
    · rw [if_pos hc, pokemonRowOf_id, ← hc]; exact hpid
    · rw [if_neg hc]; exact hpid
  · cases h
    exact ⟨p, List.mem_append_left _ hp, hpid⟩

theorem upsertPokemonRow_hasId_self {tbl : List PokemonRow} {r : CuratedRow}
    {tbl2 : List PokemonRow} (h : upsertPokemonRow tbl r = .ok tbl2) :
    ∃ p ∈ tbl2, p.id = r.id := by
  obtain ⟨nm, hnm⟩ := upsertPokemonRow_ok_name h
  rw [upsertPokemonRow_some_eq tbl r hnm] at h
  split at h
  · cases h
    rename_i hex
    obtain ⟨p, hp, hpid⟩ := hex
    refine ⟨pokemonRowOf r nm, ?_, pokemonRowOf_id r nm⟩
    refine List.mem_map.mpr ⟨p, hp, ?_⟩
    simp [hpid]
  · cases h
    exact ⟨pokemonRowOf r nm, List.mem_append_right _ (List.mem_singleton_self _),
      pokemonRowOf_id r nm⟩

theorem upsert_pokemon_hasId {df : List CuratedRow} :
    ∀ {tbl tbl2 : List PokemonRow}, upsert_pokemon tbl df = .ok tbl2 →
    ∀ {i : Int}, (∃ p ∈ tbl, p.id = i) → ∃ p ∈ tbl2, p.id = i := by
  induction df with
  | nil => intro tbl tbl2 h i hi; rw [upsert_pokemon] at h; cases h; exact hi
  | cons r rs ih =>
      intro tbl tbl2 h i hi
      rw [upsert_pokemon] at h
      cases hstep : upsertPokemonRow tbl r with
      | error e => rw [hstep] at h; cases h
      | ok tbl1 =>
          rw [hstep] at h
          exact ih h (upsertPokemonRow_hasId hstep hi)

theorem upsert_pokemon_hasId_of_mem {df : List CuratedRow} :
    ∀ {tbl tbl2 : List PokemonRow}, upsert_pokemon tbl df = .ok tbl2 →
    ∀ {r : CuratedRow}, r ∈ df → ∃ p ∈ tbl2, p.id = r.id := by
  induction df with
  | nil => intro _ _ _ r hr; cases hr
  | cons r0 rs ih =>
      intro tbl tbl2 h r hr
      rw [upsert_pokemon] at h
      cases hstep : upsertPokemonRow tbl r0 with
      | error e => rw [hstep] at h; cases h
      | ok tbl1 =>
          rw [hstep] at h
          rcases List.mem_cons.mp hr with heq | htl
          · subst heq
            exact upsert_pokemon_hasId h (upsertPokemonRow_hasId_self hstep)
          · exact ih h htl

theorem upsertPokemonRow_nodup_ids {tbl : List PokemonRow} {r : CuratedRow}
    {tbl2 : List PokemonRow} (h : upsertPokemonRow tbl r = .ok tbl2)
    (hn : (tbl.map PokemonRow.id).Nodup) : (tbl2.map PokemonRow.id).Nodup := by
  obtain ⟨nm, hnm⟩ := upsertPokemonRow_ok_name h
  rw [upsertPokemonRow_some_eq tbl r hnm] at h
  split at h
  · cases h
    have hids : (tbl.map fun p => if p.id = r.id then pokemonRowOf r nm else p).map
        PokemonRow.id = tbl.map PokemonRow.id := by
      rw [List.map_map]
      refine List.map_congr_left ?_
      intro p _
      by_cases hc : p.id = r.id
      · simp [hc, pokemonRowOf_id]
      · simp [hc]
    rw [hids]
    exact hn
  · cases h
    rename_i hnotex
    have hnotin : r.id ∉ tbl.map PokemonRow.id := by
      intro hmem
      obtain ⟨p, hp, hpid⟩ := List.mem_map.mp hmem
      exact hnotex ⟨p, hp, hpid⟩
    simp only [List.map_append, List.map_cons, List.map_nil, pokemonRowOf_id]
    simp [List.nodup_append, hn, hnotin]

theorem upsert_pokemon_nodup_ids {df : List CuratedRow} :
    ∀ {tbl tbl2 : List PokemonRow}, upsert_pokemon tbl df = .ok tbl2 →
    (tbl.map PokemonRow.id).Nodup → (tbl2.map PokemonRow.id).Nodup := by
  induction df with
  | nil => intro tbl tbl2 h hn; rw [upsert_pokemon] at h; cases h; exact hn
  | cons r rs ih =>
      intro tbl tbl2 h hn
      rw [upsert_pokemon] at h
      cases hstep : upsertPokemonRow tbl r with
      | error e => rw [hstep] at h; cases h
      | ok tbl1 =>
          rw [hstep] at h
          exact ih h (upsertPokemonRow_nodup_ids hstep hn)

/-! ## Helper lemmas: child inserts -/

theorem insertChildPair_none_eq (parent : List PokemonRow) (tbl : List (Int × String))
    (pid : Int) : insertChildPair parent tbl (pid, none) = .ok tbl := rfl

theorem insertChildPair_some_eq (parent : List PokemonRow) (tbl : List (Int × String))
    (pid : Int) (v : String) :
    insertChildPair parent tbl (pid, some v) =
      if (pid, v) ∈ tbl then .ok tbl
      else if ∃ p ∈ parent, p.id = pid then .ok (tbl ++ [(pid, v)])
      else .error .fkViolation := rfl

theorem insertChildPair_append {parent : List PokemonRow} {tbl : List (Int × String)}
    {pr : Int × Option String} {tbl2 : List (Int × String)}
    (h : insertChildPair parent tbl pr = .ok tbl2) : ∃ ext, tbl2 = tbl ++ ext := by
  obtain ⟨pid, ov⟩ := pr
  cases ov with
  | none => rw [insertChildPair_none_eq] at h; cases h; exact ⟨[], by simp⟩
  | some v =>
      rw [insertChildPair_some_eq] at h
      split at h
      · cases h; exact ⟨[], by simp⟩
      · split at h
        · cases h; exact ⟨[(pid, v)], rfl⟩
        · cases h

theorem insertChildPair_nodup {parent : List PokemonRow} {tbl : List (Int × String)}
    {pr : Int × Option String} {tbl2 : List (Int × String)}
    (h : insertChildPair parent tbl pr = .ok tbl2) (hn : tbl.Nodup) : tbl2.Nodup := by
  obtain ⟨pid, ov⟩ := pr
  cases ov with
  | none => rw [insertChildPair_none_eq] at h; cases h; exact hn
  | some v =>
      rw [insertChildPair_some_eq] at h
      split at h
      · cases h; exact hn
      · split at h
        · cases h
          rename_i hnotmem _
          simp [List.nodup_append, hn, hnotmem]
        · cases h

theorem insertChildPair_fk {parent : List PokemonRow} {tbl : List (Int × String)}
    {pr : Int × Option String} {tbl2 : List (Int × String)}
    (h : insertChildPair parent tbl pr = .ok tbl2)
    (hfk : ∀ q ∈ tbl, ∃ p ∈ parent, p.id = q.1) :
    ∀ q ∈ tbl2, ∃ p ∈ parent, p.id = q.1 := by
  obtain ⟨pid, ov⟩ := pr
  cases ov with
  | none => rw [insertChildPair_none_eq] at h; cases h; exact hfk
  | some v =>
      rw [insertChildPair_some_eq] at h
      split at h
      · cases h; exact hfk
      · split at h
        · cases h
          rename_i hpar
          intro q hq
          rcases List.mem_append.mp hq with hq1 | hq2
          · exact hfk q hq1
          · rw [List.mem_singleton.mp hq2]
            exact hpar
        · cases h

theorem insertChildPair_mem_self {parent : List PokemonRow} {tbl : List (Int × String)}
    {pid : Int} {v : String} {tbl2 : List (Int × String)}
    (h : insertChildPair parent tbl (pid, some v) = .ok tbl2) : (pid, v) ∈ tbl2 := by
  rw [insertChildPair_some_eq] at h
  split at h
  · cases h; assumption
  · split at h
    · cases h; exact List.mem_append_right _ (List.mem_singleton_self _)
    · cases h

theorem insertChildPairs_append {parent : List PokemonRow} {prs : List (Int × Option String)} :
    ∀ {tbl tbl2 : List (Int × String)}, insertChildPairs parent tbl prs = .ok tbl2 →
    ∃ ext, tbl2 = tbl ++ ext := by
  induction prs with
  | nil =>
      intro tbl tbl2 h
      rw [insertChildPairs] at h; cases h; exact ⟨[], by simp⟩
  | cons pr prs ih =>
      intro tbl tbl2 h
      rw [insertChildPairs] at h
      cases hstep : insertChildPair parent tbl pr with
      | error e => rw [hstep] at h; cases h
      | ok tbl1 =>
          rw [hstep] at h
          obtain ⟨ext1, he1⟩ := insertChildPair_append hstep
          obtain ⟨ext2, he2⟩ := ih h
          exact ⟨ext1 ++ ext2, by rw [he2, he1, List.append_assoc]⟩

theorem insertChildPairs_nodup {parent : List PokemonRow} {prs : List (Int × Option String)} :
    ∀ {tbl tbl2 : List (Int × String)}, insertChildPairs parent tbl prs = .ok tbl2 →
    tbl.Nodup → tbl2.Nodup := by
  induction prs with
  | nil => intro tbl tbl2 h hn; rw [insertChildPairs] at h; cases h; exact hn
  | cons pr prs ih =>
      intro tbl tbl2 h hn
      rw [insertChildPairs] at h
      cases hstep : insertChildPair parent tbl pr with
      | error e => rw [hstep] at h; cases h
      | ok tbl1 =>
          rw [hstep] at h
          exact ih h (insertChildPair_nodup hstep hn)

theorem insertChildPairs_fk {parent : List PokemonRow} {prs : List (Int × Option String)} :
    ∀ {tbl tbl2 : List (Int × String)}, insertChildPairs parent tbl prs = .ok tbl2 →
    (∀ q ∈ tbl, ∃ p ∈ parent, p.id = q.1) → ∀ q ∈ tbl2, ∃ p ∈ parent, p.id = q.1 := by
  induction prs with
  | nil => intro tbl tbl2 h hfk; rw [insertChildPairs] at h; cases h; exact hfk
  | cons pr prs ih =>
      intro tbl tbl2 h hfk
      rw [insertChildPairs] at h
      cases hstep : insertChildPair parent tbl pr with
      | error e => rw [hstep] at h; cases h
      | ok tbl1 =>
          rw [hstep] at h
          exact ih h (insertChildPair_fk hstep hfk)

theorem insertChildPairs_complete {parent : List PokemonRow}
    {prs : List (Int × Option String)} :
    ∀ {tbl tbl2 : List (Int × String)}, insertChildPairs parent tbl prs = .ok tbl2 →
    ∀ pr ∈ prs, ∀ v, pr.2 = some v → (pr.1, v) ∈ tbl2 := by
  induction prs with
  | nil => intro _ _ _ pr hpr; cases hpr
  | cons pr0 prs ih =>
      intro tbl tbl2 h pr hpr v hv
      rw [insertChildPairs] at h
      cases hstep : insertChildPair parent tbl pr0 with
      | error e => rw [hstep] at h; cases h
      | ok tbl1 =>
          rw [hstep] at h
          rcases List.mem_cons.mp hpr with heq | htl
          · subst heq
            obtain ⟨pid, ov⟩ := pr
            cases hv
            obtain ⟨ext, hext⟩ := insertChildPairs_append h
            rw [hext]
            exact List.mem_append_left _ (insertChildPair_mem_self hstep)
          · exact ih h pr htl v hv

theorem insertChildPairs_of_all_mem {parent : List PokemonRow}
    {prs : List (Int × Option String)} :
    ∀ {tbl : List (Int × String)}, (∀ pr ∈ prs, ∀ v, pr.2 = some v → (pr.1, v) ∈ tbl) →
    insertChildPairs parent tbl prs = .ok tbl := by
  induction prs with
  | nil => intro tbl _; rw [insertChildPairs]
  | cons pr prs ih =>
      intro tbl hall
      rw [insertChildPairs]
      obtain ⟨pid, ov⟩ := pr
      cases ov with
      | none =>
          rw [insertChildPair_none_eq]
          exact ih fun pr hpr v hv => hall pr (List.mem_cons_of_mem _ hpr) v hv
      | some v =>
          have hmem : (pid, v) ∈ tbl := hall (pid, some v) (List.mem_cons_self _ _) v rfl
          rw [insertChildPair_some_eq, if_pos hmem]
          exact ih fun pr hpr v hv => hall pr (List.mem_cons_of_mem _ hpr) v hv

/-! ## Helper lemmas: the transaction body -/

theorem loadTx_ok_parts {s : Store} {df : List CuratedRow} {s2 : Store}
    (h : loadTx s df = .ok s2) :
    ∃ pok ty ab, upsert_pokemon s.pokemon df = .ok pok ∧
      upsert_types pok s.pokemon_type df = .ok ty ∧
      upsert_abilities pok s.pokemon_ability df = .ok ab ∧
      s2 = { pokemon := pok, pokemon_type := ty, pokemon_ability := ab } := by
  unfold loadTx at h
  split at h
  · cases h
  · rename_i pok h1
    split at h
    · cases h
    · rename_i ty h2
      split at h
      · cases h
      · rename_i ab h3
        cases h
        exact ⟨pok, ty, ab, h1, h2, h3, rfl⟩

theorem load_to_sqlite_store_cases (s : Store) (df : List CuratedRow) :
    (loadTx s df = .ok (load_to_sqlite s df).store) ∨
    ((∃ e, loadTx s df = .error e) ∧ (load_to_sqlite s df).store = s) := by
  unfold load_to_sqlite
  split
  · rename_i s2 h; exact .inl h
  · rename_i e h; exact .inr ⟨⟨e, h⟩, rfl⟩

theorem loadTx_storeInv {s : Store} {df : List CuratedRow} {s2 : Store}
    (h : loadTx s df = .ok s2) (hs : storeInv s) : storeInv s2 := by
  obtain ⟨pok, ty, ab, h1, h2, h3, hs2⟩ := loadTx_ok_parts h
  obtain ⟨hfkT, hfkA, hndT, hndA⟩ := hs
  subst hs2
  unfold upsert_types at h2
  unfold upsert_abilities at h3
  have hfkT2 : ∀ q ∈ s.pokemon_type, ∃ p ∈ pok, p.id = q.1 := fun q hq =>
    upsert_pokemon_hasId h1 (hfkT q hq)
  have hfkA2 : ∀ q ∈ s.pokemon_ability, ∃ p ∈ pok, p.id = q.1 := fun q hq =>
    upsert_pokemon_hasId h1 (hfkA q hq)
  exact ⟨insertChildPairs_fk h2 hfkT2, insertChildPairs_fk h3 hfkA2,
    insertChildPairs_nodup h2 hndT, insertChildPairs_nodup h3 hndA⟩

theorem loadTx_type_mono {s : Store} {df : List CuratedRow} {s2 : Store}
    (h : loadTx s df = .ok s2) : ∀ q ∈ s.pokemon_type, q ∈ s2.pokemon_type := by
  obtain ⟨pok, ty, ab, h1, h2, h3, hs2⟩ := loadTx_ok_parts h
  subst hs2
  unfold upsert_types at h2
  obtain ⟨ext, hext⟩ := insertChildPairs_append h2
  intro q hq
  show q ∈ ty
  rw [hext]
  exact List.mem_append_left _ hq

theorem loadTx_ability_mono {s : Store} {df : List CuratedRow} {s2 : Store}
    (h : loadTx s df = .ok s2) : ∀ q ∈ s.pokemon_ability, q ∈ s2.pokemon_ability := by
  obtain ⟨pok, ty, ab, h1, h2, h3, hs2⟩ := loadTx_ok_parts h
  subst hs2
  unfold upsert_abilities at h3
  obtain ⟨ext, hext⟩ := insertChildPairs_append h3
  intro q hq
  show q ∈ ab
  rw [hext]
  exact List.mem_append_left _ hq

theorem load_store_type_mono (s : Store) (df : List CuratedRow) :
    ∀ q ∈ s.pokemon_type, q ∈ (load_to_sqlite s df).store.pokemon_type := by
  rcases load_to_sqlite_store_cases s df with h | ⟨_, hst⟩
  · exact loadTx_type_mono h
  · rw [hst]; exact fun q hq => hq

theorem load_store_ability_mono (s : Store) (df : List CuratedRow) :
    ∀ q ∈ s.pokemon_ability, q ∈ (load_to_sqlite s df).store.pokemon_ability := by
  rcases load_to_sqlite_store_cases s df with h | ⟨_, hst⟩
  · exact loadTx_ability_mono h
  · rw [hst]; exact fun q hq => hq

/-! ## Claims C1, C6, C8, C9 -/

/-- C1 (atomic load): if any step of the transaction body raises, the whole
transaction is rolled back — the resulting store's parent table and both
child tables are exactly their pre-load state — and the failure is
re-raised to the caller of `load_to_sqlite`. -/
theorem load_atomic_rollback (s : Store) (df : List CuratedRow) (e : LoadErr)
    (h : loadTx s df = .error e) :
    (load_to_sqlite s df).outcome = .error e ∧
    (load_to_sqlite s df).store.pokemon = s.pokemon ∧
    (load_to_sqlite s df).store.pokemon_type = s.pokemon_type ∧
    (load_to_sqlite s df).store.pokemon_ability = s.pokemon_ability := by
  unfold load_to_sqlite
  rw [h]
  exact ⟨rfl, rfl, rfl, rfl⟩

/-- Witness for C1: loading a record with a NULL name into the store
already holding sampleRow raises, the error propagates, and all three
tables are unchanged. -/
theorem load_atomic_rollback_witness :
    loadTx store1 [nullNameRow] = .error .notNullViolation ∧
    ((load_to_sqlite store1 [nullNameRow]).outcome = .error .notNullViolation ∧
     (load_to_sqlite store1 [nullNameRow]).store.pokemon = store1.pokemon ∧
     (load_to_sqlite store1 [nullNameRow]).store.pokemon_type = store1.pokemon_type ∧
     (load_to_sqlite store1 [nullNameRow]).store.pokemon_ability = store1.pokemon_ability) :=
  ⟨rfl, load_atomic_rollback store1 [nullNameRow] .notNullViolation rfl⟩

theorem load_counts_storeCounts (s : Store) (df : List CuratedRow) :
    (load_to_sqlite s df).counts = storeCounts (load_to_sqlite s df).store := by
  unfold load_to_sqlite
  split
  · rfl
  · rfl

/-- C8 (counts always reported): the count query of the `finally` block is
computed from the post-transaction store on both the success and the
rollback path, so the summary is reported regardless of transaction
outcome. -/
theorem counts_always_reported (s : Store) (df : List CuratedRow) :
    (load_to_sqlite s df).counts = storeCounts (load_to_sqlite s df).store :=
  load_counts_storeCounts s df

/-- C6 (child monotonic-membership anomaly): over any sequence of load
passes, every row already present in `pokemon_type` or `pokemon_ability`
is still present afterwards — the load logic only ever adds child rows. -/
theorem child_rows_monotone (s : Store) (dfs : List (List CuratedRow)) :
    (∀ q ∈ s.pokemon_type, q ∈ (loadSeq s dfs).pokemon_type) ∧
    (∀ q ∈ s.pokemon_ability, q ∈ (loadSeq s dfs).pokemon_ability) := by
  induction dfs generalizing s with
  | nil => exact ⟨fun q hq => hq, fun q hq => hq⟩
  | cons df dfs ih =>
      refine ⟨fun q hq => ?_, fun q hq => ?_⟩
      · exact (ih ((load_to_sqlite s df).store)).1 q (load_store_type_mono s df q hq)
      · exact (ih ((load_to_sqlite s df).store)).2 q (load_store_ability_mono s df q hq)

/-- Witness for C6: the §8 scenario — after loading sampleRow (types
grass and poison) and then reloading the same id with types [grass] only,
the (1, poison) row is still present (as is the ability row). -/
theorem child_rows_monotone_witness :
    ((1 : Int), "poison") ∈ (loadSeq store1 [[sampleRow2]]).pokemon_type ∧
    ((1 : Int), "overgrow") ∈ (loadSeq store1 [[sampleRow2]]).pokemon_ability :=
  ⟨(child_rows_monotone store1 [[sampleRow2]]).1 (1, "poison") (by decide),
   (child_rows_monotone store1 [[sampleRow2]]).2 (1, "overgrow") (by decide)⟩

/-- C9 (store invariant): in every store reachable by schema
initializations and load passes, both child tables satisfy referential
integrity into `pokemon` and contain no duplicate (pokemon_id, value)
pair. -/
theorem reachable_store_inv (s : Store) (h : Reachable s) : storeInv s := by
  induction h with
  | init => exact ⟨by simp [init_schema], by simp [init_schema], by simp [init_schema],
      by simp [init_schema]⟩
  | reinit s hs ih => exact ih
  | load s df hs ih =>
      rcases load_to_sqlite_store_cases s df with h2 | ⟨_, hst⟩
      · exact loadTx_storeInv h2 ih
      · rw [hst]; exact ih

/-- Witness for C9: the invariant holds in the concrete store reached by
initializing a fresh schema and loading sampleRow. -/
theorem reachable_store_inv_witness :
    storeInv (load_to_sqlite (init_schema none) [sampleRow]).store :=
  reachable_store_inv _ (Reachable.load _ _ Reachable.init)

/-! ## Helper lemmas: idempotence and last-write-wins of the parent upsert -/

theorem upsertPokemonRow_rows_at {tbl : List PokemonRow} {r : CuratedRow}
    {tbl2 : List PokemonRow} {nm : String} (hnm : r.name = some nm)
    (h : upsertPokemonRow tbl r = .ok tbl2) :
    ∀ p ∈ tbl2, p.id = r.id → p = pokemonRowOf r nm := by
  rw [upsertPokemonRow_some_eq tbl r hnm] at h
  split at h
  · cases h
    intro p hp hpid
    obtain ⟨q, hq, hqe⟩ := List.mem_map.mp hp
    by_cases hc : q.id = r.id
    · rw [if_pos hc] at hqe; exact hqe.symm
    · rw [if_neg hc] at hqe; subst hqe; exact absurd hpid hc
  · cases h
    rename_i hnotex
    intro p hp hpid
    rcases List.mem_append.mp hp with h1 | h2
    · exact absurd ⟨p, h1, hpid⟩ hnotex
    · exact List.mem_singleton.mp h2

theorem upsertPokemonRow_mem_of_ne {tbl : List PokemonRow} {r : CuratedRow}
    {tbl2 : List PokemonRow} (h : upsertPokemonRow tbl r = .ok tbl2)
    {i : Int} (hne : r.id ≠ i) : ∀ p ∈ tbl2, p.id = i → p ∈ tbl := by
  obtain ⟨nm, hnm⟩ := upsertPokemonRow_ok_name h
  rw [upsertPokemonRow_some_eq tbl r hnm] at h
  split at h
  · cases h
    intro p hp hpid
    obtain ⟨q, hq, hqe⟩ := List.mem_map.mp hp
    by_cases hc : q.id = r.id
    · rw [if_pos hc] at hqe
      subst hqe
      exact absurd (hpid ▸ pokemonRowOf_id r nm) hne
    · rw [if_neg hc] at hqe; subst hqe; exact hq
  · cases h
    intro p hp hpid
    rcases List.mem_append.mp hp with h1 | h2
    · exact h1
    · have hpr : p = pokemonRowOf r nm := List.mem_singleton.mp h2
      rw [hpr, pokemonRowOf_id] at hpid
      exact absurd hpid hne

theorem upsert_pokemon_mem_of_ne {i : Int} : ∀ {df : List CuratedRow},
    (∀ r' ∈ df, r'.id ≠ i) →
    ∀ {tbl tbl2 : List PokemonRow}, upsert_pokemon tbl df = .ok tbl2 →
    ∀ p ∈ tbl2, p.id = i → p ∈ tbl := by
  intro df
  induction df with
  | nil => intro _ tbl tbl2 h p hp _; rw [upsert_pokemon] at h; cases h; exact hp
  | cons r rs ih =>
      intro hnone tbl tbl2 h p hp hpid
      rw [upsert_pokemon] at h
      cases hstep : upsertPokemonRow tbl r with
      | error e => rw [hstep] at h; cases h
      | ok tbl1 =>
          rw [hstep] at h
          have hp1 : p ∈ tbl1 :=
            ih (fun r' hr' => hnone r' (List.mem_cons_of_mem _ hr')) h p hp hpid
          exact upsertPokemonRow_mem_of_ne hstep
            (hnone r (List.mem_cons_self _ _)) p hp1 hpid

theorem upsert_pokemon_rows_at {r : CuratedRow} {nm : String}
    (hnm : r.name = some nm) : ∀ {df : List CuratedRow},
    (∀ r' ∈ df, r'.id = r.id → r' = r) → r ∈ df →
    ∀ {tbl tbl2 : List PokemonRow}, upsert_pokemon tbl df = .ok tbl2 →
    ∀ p ∈ tbl2, p.id = r.id → p = pokemonRowOf r nm := by
  intro df
  induction df with
  | nil => intro _ hr; cases hr
  | cons r0 rs ih =>
      intro huniq hr tbl tbl2 h p hp hpid
      rw [upsert_pokemon] at h
      cases hstep : upsertPokemonRow tbl r0 with
      | error e => rw [hstep] at h; cases h
      | ok tbl1 =>
          rw [hstep] at h
          by_cases hrs : r ∈ rs
          · exact ih (fun r' hr' => huniq r' (List.mem_cons_of_mem _ hr')) hrs h p hp hpid
          · have hr0 : r0 = r := by
              rcases List.mem_cons.mp hr with heq | htl
              · exact heq.symm
              · exact absurd htl hrs
            subst hr0
            have hnone : ∀ r' ∈ rs, r'.id ≠ r0.id := by
              intro r' hr' hid
              exact hrs (huniq r' (List.mem_cons_of_mem _ hr') hid ▸ hr')
            have hp1 : p ∈ tbl1 := upsert_pokemon_mem_of_ne hnone h p hp hpid
            exact upsertPokemonRow_rows_at hnm hstep p hp1 hpid

theorem rowsWithId_singleton {row : PokemonRow} {i : Int} : ∀ {tbl : List PokemonRow},
    (tbl.map PokemonRow.id).Nodup → (∃ p ∈ tbl, p.id = i) →
    (∀ p ∈ tbl, p.id = i → p = row) → rowsWithId tbl i = [row] := by
  intro tbl
  induction tbl with
  | nil => intro _ hex _; obtain ⟨p, hp, _⟩ := hex; cases hp
  | cons p tbl ih =>
      intro hn hex hall
      by_cases hc : p.id = i
      · have hhead : p = row := hall p (List.mem_cons_self _ _) hc
        have htail : ∀ q ∈ tbl, ¬(q.id = i) := by
          intro q hq hqid
          have : p.id ∈ tbl.map PokemonRow.id :=
            List.mem_map.mpr ⟨q, hq, by rw [hqid, hc]⟩
          exact (List.nodup_cons.mp hn).1 this
        have hfil : rowsWithId tbl i = [] := by
          simp only [rowsWithId, List.filter_eq_nil_iff]
          intro q hq
          simpa using htail q hq
        simp only [rowsWithId, List.filter_cons]
        rw [if_pos (by simpa using hc)]
        rw [show List.filter (fun p => decide (p.id = i)) tbl = [] from hfil, hhead]
      · have hex2 : ∃ q ∈ tbl, q.id = i := by
          obtain ⟨q, hq, hqid⟩ := hex
          rcases List.mem_cons.mp hq with heq | htl
          · exact absurd (heq ▸ hqid) hc
          · exact ⟨q, htl, hqid⟩
        have := ih (List.nodup_cons.mp hn).2 hex2
          (fun q hq hqid => hall q (List.mem_cons_of_mem _ hq) hqid)
        simp only [rowsWithId, List.filter_cons]
        rw [if_neg (by simpa using hc)]
        exact this

theorem upsert_pokemon_idem : ∀ {df : List CuratedRow},
    (df.map CuratedRow.id).Nodup →
    ∀ {tbl tbl2 : List PokemonRow}, upsert_pokemon tbl df = .ok tbl2 →
    upsert_pokemon tbl2 df = .ok tbl2 := by
  intro df
  induction df with
  | nil => intro _ tbl tbl2 h; rw [upsert_pokemon] at h; cases h; rw [upsert_pokemon]
  | cons r rs ih =>
      intro hdf tbl tbl2 h
      rw [upsert_pokemon] at h
      cases hstep : upsertPokemonRow tbl r with
      | error e => rw [hstep] at h; cases h
      | ok tbl1 =>
          rw [hstep] at h
          obtain ⟨nm, hnm⟩ := upsertPokemonRow_ok_name hstep
          have hdf2 : (∀ x ∈ rs, ¬x.id = r.id) ∧ (rs.map CuratedRow.id).Nodup := by
            simpa using hdf
          have hnone : ∀ r' ∈ rs, r'.id ≠ r.id := hdf2.1
          have hrowsAt2 : ∀ p ∈ tbl2, p.id = r.id → p = pokemonRowOf r nm := by
            intro p hp hpid
            exact upsertPokemonRow_rows_at hnm hstep p
              (upsert_pokemon_mem_of_ne hnone h p hp hpid) hpid
          have hhas : ∃ p ∈ tbl2, p.id = r.id :=
            upsert_pokemon_hasId h (upsertPokemonRow_hasId_self hstep)
          have hstep2 : upsertPokemonRow tbl2 r = .ok tbl2 := by
            rw [upsertPokemonRow_some_eq tbl2 r hnm, if_pos hhas]
            have hmap : tbl2.map (fun p => if p.id = r.id then pokemonRowOf r nm else p)
                = tbl2.map id := by
              refine List.map_congr_left ?_
              intro p hp
              by_cases hc : p.id = r.id
              · rw [if_pos hc, id_eq, hrowsAt2 p hp hc]
              · rw [if_neg hc, id_eq]
            rw [hmap, List.map_id]
          rw [upsert_pokemon, hstep2]
          exact ih hdf2.2 h

theorem loadTx_idem {s : Store} {df : List CuratedRow} {s1 : Store}
    (hdf : (df.map CuratedRow.id).Nodup) (h : loadTx s df = .ok s1) :
    loadTx s1 df = .ok s1 := by
  obtain ⟨pok, ty, ab, h1, h2, h3, hs1⟩ := loadTx_ok_parts h
  subst hs1
  unfold upsert_types at h2
  unfold upsert_abilities at h3
  have h1i : upsert_pokemon pok df = .ok pok := upsert_pokemon_idem hdf h1
  have h2i : insertChildPairs pok ty (typePairs df) = .ok ty :=
    insertChildPairs_of_all_mem fun pr hpr v hv => insertChildPairs_complete h2 pr hpr v hv
  have h3i : insertChildPairs pok ab (abilityPairs df) = .ok ab :=
    insertChildPairs_of_all_mem fun pr hpr v hv => insertChildPairs_complete h3 pr hpr v hv
  unfold loadTx upsert_types upsert_abilities
  simp only [h1i, h2i, h3i]

theorem load_store_idem (s : Store) (df : List CuratedRow)
    (hdf : (df.map CuratedRow.id).Nodup) :
    (load_to_sqlite (load_to_sqlite s df).store df).store = (load_to_sqlite s df).store := by
  rcases load_to_sqlite_store_cases s df with h | ⟨⟨e, he⟩, hst⟩
  · have hidem := loadTx_idem hdf h
    rcases load_to_sqlite_store_cases (load_to_sqlite s df).store df with h2 | ⟨_, hst2⟩
    · rw [hidem] at h2
      exact (Except.ok.inj h2).symm
    · exact hst2
  · rw [hst]
    exact hst

/-! ## Claims C2 and C5 -/

/-- C2 (idempotent load): loading the same curated collection (whose ids
are unique within the batch, the CuratedRecord invariant) twice in
succession yields, after the second run, the same reported row counts for
all three tables as after the first run. -/
theorem load_idempotent_counts (s : Store) (df : List CuratedRow)
    (hdf : (df.map CuratedRow.id).Nodup) :
    (load_to_sqlite (load_to_sqlite s df).store df).counts =
      (load_to_sqlite s df).counts := by
  rw [load_counts_storeCounts, load_counts_storeCounts, load_store_idem s df hdf]

/-- Witness for C2: loading `[sampleRow]` twice on a fresh store reports
identical counts after the second run. -/
theorem load_idempotent_counts_witness :
    (load_to_sqlite (load_to_sqlite (init_schema none) [sampleRow]).store
        [sampleRow]).counts =
      (load_to_sqlite (init_schema none) [sampleRow]).counts :=
  load_idempotent_counts (init_schema none) [sampleRow] (by decide)

/-- C5 (upsert overwrite, last-write-wins): loading c1 containing a record
with some id, then loading c2 containing the (unique-in-batch) record r2
with the same id and a changed base_experience, leaves exactly one parent
row with that id, carrying r2's name, height, weight and base_experience. -/
theorem upsert_overwrite_last_write_wins (s : Store) (c1 c2 : List CuratedRow)
    (s1 s2 : Store) (r1 r2 : CuratedRow) (nm : String)
    (hn : (s.pokemon.map PokemonRow.id).Nodup)
    (h1 : loadTx s c1 = .ok s1) (h2 : loadTx s1 c2 = .ok s2)
    (hr1 : r1 ∈ c1) (hid : r1.id = r2.id)
    (hbe : r1.base_experience ≠ r2.base_experience)
    (hr2 : r2 ∈ c2) (hnm : r2.name = some nm)
    (huniq : ∀ r' ∈ c2, r'.id = r2.id → r' = r2) :
    rowsWithId s2.pokemon r2.id = [pokemonRowOf r2 nm] := by
  obtain ⟨pok1, ty1, ab1, h11, _, _, hs1⟩ := loadTx_ok_parts h1
  obtain ⟨pok2, ty2, ab2, h21, _, _, hs2⟩ := loadTx_ok_parts h2
  subst hs1
  subst hs2
  have hn1 : (pok1.map PokemonRow.id).Nodup := upsert_pokemon_nodup_ids h11 hn
  have hn2 : (pok2.map PokemonRow.id).Nodup := upsert_pokemon_nodup_ids h21 hn1
  have hex : ∃ p ∈ pok2, p.id = r2.id := upsert_pokemon_hasId_of_mem h21 hr2
  have hall : ∀ p ∈ pok2, p.id = r2.id → p = pokemonRowOf r2 nm :=
    upsert_pokemon_rows_at hnm huniq hr2 h21
  exact rowsWithId_singleton hn2 hex hall

/-- Witness for C5: after loading `[sampleRow]` and then `[sampleRow2]`
(same id 1, base_experience 64 then 100), exactly one parent row with id 1
remains, carrying sampleRow2's attribute values. -/
theorem upsert_overwrite_last_write_wins_witness :
    rowsWithId store2.pokemon sampleRow2.id = [pokemonRowOf sampleRow2 "bulbasaur"] :=
  upsert_overwrite_last_write_wins (init_schema none) [sampleRow] [sampleRow2]
    store1 store2 sampleRow sampleRow2 "bulbasaur"
    (by decide) rfl rfl (by decide) (by decide) (by decide) (by decide) rfl
    (by decide)

/-! ## Helper lemmas: extraction -/

theorem projectPayload_eq_none {raw : RawPayload}
    (h : raw.id = none ∨ raw.name = none) : projectPayload raw = none := by
  rcases h with h | h
  · unfold projectPayload; rw [h]
  · unfold projectPayload; rw [h]; cases raw.id <;> rfl

theorem projectPayload_id {raw : RawPayload} {rec : CuratedRecord}
    (h : projectPayload raw = some rec) : raw.id = some rec.id := by
  cases hid : raw.id with
  | none =>
      rw [projectPayload_eq_none (.inl hid)] at h
      cases h
  | some i =>
      cases hnm : raw.name with
      | none =>
          rw [projectPayload_eq_none (.inr hnm)] at h
          cases h
      | some nm =>
          simp only [projectPayload, hid, hnm] at h
          cases h
          rfl

theorem reduceOption_map_some {α : Type _} (P : List α) :
    (P.map some).reduceOption = P := by
  induction P with
  | nil => rfl
  | cons x P ih => simp [List.reduceOption_cons_of_some, ih]

theorem filterMap_length_of_isSome {α β : Type _} (f : α → Option β) :
    ∀ {P : List α}, (∀ x ∈ P, (f x).isSome) → (P.filterMap f).length = P.length := by
  intro P
  induction P with
  | nil => intro _; rfl
  | cons x P ih =>
      intro h
      obtain ⟨b, hb⟩ := Option.isSome_iff_exists.mp (h x (List.mem_cons_self _ _))
      simp [List.filterMap_cons, hb, ih fun y hy => h y (List.mem_cons_of_mem _ hy)]

theorem filterMap_get_of_isSome {α β : Type _} (f : α → Option β) :
    ∀ {P : List α}, (∀ x ∈ P, (f x).isSome) →
    ∀ (j : Nat) (hj : j < P.length) (hj2 : j < (P.filterMap f).length),
      f (P.get ⟨j, hj⟩) = some ((P.filterMap f).get ⟨j, hj2⟩) := by
  intro P
  induction P with
  | nil => intro _ j hj; exact absurd hj (by simp)
  | cons x P ih =>
      intro h j hj hj2
      obtain ⟨b, hb⟩ := Option.isSome_iff_exists.mp (h x (List.mem_cons_self _ _))
      have htail : ∀ y ∈ P, (f y).isSome := fun y hy => h y (List.mem_cons_of_mem _ hy)
      cases j with
      | zero => simp [List.filterMap_cons, hb]
      | succ j =>
          have hj2' : j < (P.filterMap f).length := by
            have : ((x :: P).filterMap f) = b :: P.filterMap f := by
              simp [List.filterMap_cons, hb]
            rw [this] at hj2
            simpa using hj2
          have := ih htail j (by simpa using hj) hj2'
          simp only [List.get_cons_succ, this]
          congr 1
          have hcons : ((x :: P).filterMap f) = b :: P.filterMap f := by
            simp [List.filterMap_cons, hb]
          rw [List.get_of_eq hcons ⟨j + 1, hj2⟩]
          rfl

theorem itemSkipOrOk_proj_isSome {net : String → NetResult} :
    ∀ {l : List IndexItem} {P : List RawPayload},
    List.Forall₂ (itemSkipOrOk net) l (P.map some) →
    ∀ raw ∈ P, (projectPayload raw).isSome := by
  intro l P
  induction P generalizing l with
  | nil => intro _ raw hraw; cases hraw
  | cons raw0 P ih =>
      intro h raw hraw
      cases l with
      | nil => cases h
      | cons a l =>
          rw [List.map_cons] at h
          have h' := List.forall₂_cons.mp h
          rcases List.mem_cons.mp hraw with heq | htl
          · subst heq
            obtain ⟨u, _, hconj⟩ := h'.1
            exact hconj.2
          · exact ih h'.2 raw htl

theorem extract_append_seg {net : String → NetResult} :
    ∀ {l : List IndexItem} {P : List (Option RawPayload)},
    List.Forall₂ (itemSkipOrOk net) l P → ∀ t,
    extract_pokemon_batch net (l ++ t) =
      (extract_pokemon_batch net t).map fun pr =>
        (P.reduceOption.filterMap projectPayload ++ pr.1, P.reduceOption ++ pr.2) := by
  intro l P h
  induction h with
  | nil =>
      intro t
      cases hres : extract_pokemon_batch net t with
      | ok pr => simp [Except.map, hres]
      | error e => simp [Except.map, hres]
  | cons hrel htail ih =>
      rename_i a o l' P'
      intro t
      obtain ⟨u, hu, hcase⟩ := hrel
      cases o with
      | none =>
          have hred : (none :: P').reduceOption = P'.reduceOption := by
            simp [List.reduceOption_cons_of_none]
          rcases hcase with hto | herr
          · simp only [List.cons_append, extract_pokemon_batch, hu,
              fetch_pokemon_detail, hto, hred]
            exact ih t
          · simp only [List.cons_append, extract_pokemon_batch, hu,
              fetch_pokemon_detail, herr, hred]
            exact ih t
      | some raw =>
          obtain ⟨hok, hsome⟩ := hcase
          obtain ⟨rec, hrec⟩ := Option.isSome_iff_exists.mp hsome
          simp only [List.cons_append, extract_pokemon_batch, hu,
            fetch_pokemon_detail, hok, hrec, List.append_eq,
            List.reduceOption_cons_of_some, List.filterMap_cons]
          cases hres : extract_pokemon_batch net t with
          | ok pr =>
              rw [ih t, hres]
              simp [Except.map, hrec]
          | error e =>
              rw [ih t, hres]
              simp [Except.map]

/-! ## Claims C3, C4, C7, C10 -/

/-- C7 (curated projection): for a detail payload carrying the mandatory
id and name, the Detail Fetcher succeeds with a record built from exactly
the eight curated fields, copying the optional scalars as-is (null stays
null, never zero), selecting the type and ability name lists (absent list
keys become the empty list), and the default front sprite reference
(absent sprite data becomes null). -/
theorem curated_projection_fields (net : String → NetResult) (u : String)
    (raw : RawPayload) (i : Int) (nm : String)
    (hnet : net u = .ok raw) (hid : raw.id = some i) (hnm : raw.name = some nm) :
    fetch_pokemon_detail net u =
      .ok ({ id := i, name := nm, height := raw.height, weight := raw.weight,
             base_experience := raw.base_experience,
             types := raw.types.getD [],
             abilities := raw.abilities.getD [],
             sprites_front_default := raw.sprites.bind SpritesBlock.front_default },
           raw) := by
  unfold fetch_pokemon_detail
  rw [hnet]
  simp only [projectPayload, hid, hnm]

/-- Witness for C7: fetching payload3 (every optional field absent) yields
the record with id 3 and name venusaur, null scalars, empty lists and a
null sprite reference. -/
theorem curated_projection_fields_witness :
    fetch_pokemon_detail netW "u3" =
      .ok ({ id := 3, name := "venusaur", height := none, weight := none,
             base_experience := none, types := [], abilities := [],
             sprites_front_default := none }, payload3) :=
  curated_projection_fields netW "u3" payload3 3 "venusaur" rfl rfl rfl

/-- C10 (implicit): whenever some item of the index page lacks the
`"url"` key, the whole batch aborts with the uncaught KeyError — the url
lookup precedes the per-item try block, so the per-item skip policy never
applies to it. -/
theorem missing_url_aborts_batch (net : String → NetResult) :
    ∀ index : List IndexItem, (∃ it ∈ index, it.url = none) →
    extract_pokemon_batch net index = .error .keyError := by
  intro index
  induction index with
  | nil => intro h; obtain ⟨it, hit, _⟩ := h; cases hit
  | cons a rest ih =>
      intro h
      cases hu : a.url with
      | none => simp [extract_pokemon_batch, hu]
      | some u =>
          have hrest : ∃ it ∈ rest, it.url = none := by
            obtain ⟨it, hit, hnone⟩ := h
            rcases List.mem_cons.mp hit with heq | htl
            · rw [heq] at hnone; rw [hnone] at hu; cases hu
            · exact ⟨it, htl, hnone⟩
          have hr := ih hrest
          simp only [extract_pokemon_batch, hu]
          cases hf : fetch_pokemon_detail net u with
          | error fe => cases fe <;> simp [hr]
          | ok pr => simp [hr]

/-- Witness for C10: a two-item index whose second item lacks the url key
makes the whole batch abort with KeyError. -/
theorem missing_url_aborts_batch_witness :
    extract_pokemon_batch netW [item1, itemNoUrl] = .error .keyError :=
  missing_url_aborts_batch netW [item1, itemNoUrl] ⟨itemNoUrl, by decide, rfl⟩

/-- Counterexample for C4: the claim predicts that a payload lacking the
mandatory id is skipped and the batch continues; on the code, the KeyError
from `raw["id"]` is not one of the two caught request-exception classes,
so the batch aborts — here a batch of item4 (payload lacking id) followed
by the perfectly healthy item1 returns the KeyError instead of any
success value. -/
theorem schema_error_not_skipped_cex :
    extract_pokemon_batch netW [item4, item1] = .error .keyError ∧
    ¬∃ res, extract_pokemon_batch netW [item4, item1] = .ok res :=
  ⟨rfl, fun ⟨_, hco⟩ => by
    rw [show extract_pokemon_batch netW [item4, item1] = .error .keyError from rfl] at hco
    cases hco⟩

/-- C4 amended: when a detail payload lacks the mandatory id or name
field, the Detail Fetcher raises KeyError; the orchestrator's handlers
catch only Timeout and RequestException, so the KeyError is NOT treated as
a request error — it propagates and aborts the whole batch instead of
being logged and skipped (however many earlier items succeeded or were
skipped). -/
theorem schema_error_aborts_batch (net : String → NetResult)
    (l1 l2 : List IndexItem) (it : IndexItem) (P1 : List (Option RawPayload))
    (u : String) (raw : RawPayload)
    (h1 : List.Forall₂ (itemSkipOrOk net) l1 P1)
    (hit : it.url = some u) (hraw : net u = .ok raw)
    (hmiss : raw.id = none ∨ raw.name = none) :
    extract_pokemon_batch net (l1 ++ it :: l2) = .error .keyError := by
  rw [extract_append_seg h1 (it :: l2)]
  have hproj : projectPayload raw = none := projectPayload_eq_none hmiss
  simp [extract_pokemon_batch, hit, fetch_pokemon_detail, hraw, hproj, Except.map]

/-- Witness for C4's amended claim: after a successful item1, the item4
payload lacking id aborts the whole batch (item3 is never reached). -/
theorem schema_error_aborts_batch_witness :
    extract_pokemon_batch netW ([item1] ++ item4 :: [item3]) = .error .keyError :=
  schema_error_aborts_batch netW [item1] [item3] item4 [some payload1] "u4"
    payloadNoId (List.Forall₂.cons ⟨"u1", rfl, rfl, rfl⟩ List.Forall₂.nil)
    rfl rfl (.inl rfl)

/-- C3 (partial-failure-tolerant batch): on an index where exactly one
item's detail fetch times out and every other item succeeds with a
projectable payload, the batch returns: a curated collection of length
N-1 from which the failing item's id is absent, a raw collection of the
same length N-1, and at every position j the raw element is the payload
the curated element at j was projected from. -/
theorem extract_partial_failure (net : String → NetResult)
    (l1 l2 : List IndexItem) (fi : IndexItem) (P1 P2 : List RawPayload)
    (u : String) (fid : Int)
    (h1 : List.Forall₂ (itemSkipOrOk net) l1 (P1.map some))
    (h2 : List.Forall₂ (itemSkipOrOk net) l2 (P2.map some))
    (hfi : fi.url = some u) (hto : net u = .timeout)
    (hfid : ∀ raw ∈ P1 ++ P2, raw.id ≠ some fid) :
    ∃ c r, extract_pokemon_batch net (l1 ++ fi :: l2) = .ok (c, r) ∧
      c.length = (l1 ++ fi :: l2).length - 1 ∧
      r.length = (l1 ++ fi :: l2).length - 1 ∧
      fid ∉ c.map CuratedRecord.id ∧
      ∀ (j : Nat) (hj : j < r.length) (hj2 : j < c.length),
        projectPayload (r.get ⟨j, hj⟩) = some (c.get ⟨j, hj2⟩) := by
  have hsome1 := itemSkipOrOk_proj_isSome h1
  have hsome2 := itemSkipOrOk_proj_isSome h2
  have hsome : ∀ raw ∈ P1 ++ P2, (projectPayload raw).isSome := by
    intro raw hraw
    rcases List.mem_append.mp hraw with hm | hm
    · exact hsome1 raw hm
    · exact hsome2 raw hm
  have hmid : extract_pokemon_batch net (fi :: l2) =
      .ok (P2.filterMap projectPayload, P2) := by
    have hseg := extract_append_seg h2 []
    rw [List.append_nil] at hseg
    simp only [extract_pokemon_batch, hfi, fetch_pokemon_detail, hto, hseg]
    simp [Except.map, reduceOption_map_some]
  have hcalc : extract_pokemon_batch net (l1 ++ fi :: l2) =
      .ok ((P1 ++ P2).filterMap projectPayload, P1 ++ P2) := by
    rw [extract_append_seg h1 (fi :: l2), hmid]
    simp [Except.map, reduceOption_map_some, List.filterMap_append]
  refine ⟨(P1 ++ P2).filterMap projectPayload, P1 ++ P2, hcalc, ?_, ?_, ?_, ?_⟩
  · have hlen := filterMap_length_of_isSome projectPayload hsome
    have hl1 : l1.length = P1.length := by
      have := h1.length_eq
      simpa using this
    have hl2 : l2.length = P2.length := by
      have := h2.length_eq
      simpa using this
    simp only [hlen, List.length_append, List.length_cons, hl1, hl2]
    omega
  · have hl1 : l1.length = P1.length := by simpa using h1.length_eq
    have hl2 : l2.length = P2.length := by simpa using h2.length_eq
    simp only [List.length_append, List.length_cons, hl1, hl2]
    omega
  · intro hmem
    obtain ⟨rec, hrec, hid⟩ := List.mem_map.mp hmem
    obtain ⟨raw, hraw, hproj⟩ := List.mem_filterMap.mp hrec
    exact hfid raw hraw (by rw [projectPayload_id hproj, hid])
  · exact fun j hj hj2 => filterMap_get_of_isSome projectPayload hsome j hj hj2

/-- Witness for C3: a three-item index where the middle fetch (u2) times
out yields a two-element curated/raw pair, with id 2 absent and the raw
payloads positionally matching the curated records. -/
theorem extract_partial_failure_witness :
    ∃ c r, extract_pokemon_batch netW ([item1] ++ item2 :: [item3]) = .ok (c, r) ∧
      c.length = ([item1] ++ item2 :: [item3]).length - 1 ∧
      r.length = ([item1] ++ item2 :: [item3]).length - 1 ∧
      (2 : Int) ∉ c.map CuratedRecord.id ∧
      ∀ (j : Nat) (hj : j < r.length) (hj2 : j < c.length),
        projectPayload (r.get ⟨j, hj⟩) = some (c.get ⟨j, hj2⟩) :=
  extract_partial_failure netW [item1] [item3] item2 [payload1] [payload3] "u2" 2
    (List.Forall₂.cons ⟨"u1", rfl, rfl, rfl⟩ List.Forall₂.nil)
    (List.Forall₂.cons ⟨"u3", rfl, rfl, rfl⟩ List.Forall₂.nil)
    rfl rfl (by decide)

end PokePipeline
